import Mathlib

/-!
Verification of the concurrency core of centrifuge-go: the watchdog mutex
(src/internal/mutex/mutex.go), the cancellable FIFO list (List[T]) and the
baton-passing callback dispatcher (cbQueue), together with the worker-style
dispatcher variant (src/queue.go).  Each Go function is shallowly embedded as
a Lean definition; goroutine interleavings that matter are made explicit as
schedule parameters or as a small-step transition relation.
-/

namespace Centrifuge

/-! ### Mutex (src/internal/mutex/mutex.go)

The Go mutex is a buffered channel of capacity 1: locked iff `len(state) == 1`.
We model the channel occupancy as a single boolean. -/

structure Mutex where
  locked : Bool
  deriving DecidableEq

/-- Result of `Mutex.Unlock`: either the mutex after a normal return, or a
panic carrying the message and the (untouched) mutex state. -/
inductive UnlockResult where
  | ok (m : Mutex)
  | panicked (msg : String) (m : Mutex)
  deriving DecidableEq

/-- `Unlock`: `select { case <-m.state: ; default: panic("unlock of unlocked mutex") }`.
The receive succeeds iff the channel holds a value, i.e. iff the mutex is locked. -/
def Mutex.Unlock (m : Mutex) : UnlockResult :=
  match m.locked with
  | true => .ok ⟨false⟩
  | false => .panicked "unlock of unlocked mutex" m

/-- `TryLock`: `select { case m.state <- struct{}{}: return true; default: return false }`.
The send on the capacity-1 channel succeeds iff the channel is empty, i.e. iff
the mutex is unlocked; it never blocks (the `default` arm). -/
def Mutex.TryLock (m : Mutex) : Bool × Mutex :=
  match m.locked with
  | false => (true, ⟨true⟩)
  | true => (false, m)

/-- C5: Unlock on a mutex that is not locked panics with a fatal error and leaves
the lock state uncorrupted (the panicked result carries the mutex unchanged);
Unlock while the lock is held transitions it to unlocked and returns normally. -/
theorem mutex_unlock_spec (m : Mutex) :
    (m.locked = false → Mutex.Unlock m = .panicked "unlock of unlocked mutex" m) ∧
    (m.locked = true → Mutex.Unlock m = .ok ⟨false⟩) := by
  refine ⟨fun h => ?_, fun h => ?_⟩ <;> simp [Mutex.Unlock, h]

/-- Witness for C5: the two branches evaluated at concrete mutex states. -/
theorem mutex_unlock_spec_witness :
    Mutex.Unlock ⟨false⟩ = .panicked "unlock of unlocked mutex" ⟨false⟩ ∧
    Mutex.Unlock ⟨true⟩ = .ok ⟨false⟩ :=
  ⟨(mutex_unlock_spec ⟨false⟩).1 rfl, (mutex_unlock_spec ⟨true⟩).2 rfl⟩

/-- C10: TryLock on an unlocked mutex acquires it (state becomes locked) and
returns true; TryLock on a locked mutex returns false and leaves the state
unchanged.  The embedding is a total function: the `default` select arm means
the call never blocks. -/
theorem mutex_tryLock_spec (m : Mutex) :
    (m.locked = false → Mutex.TryLock m = (true, ⟨true⟩)) ∧
    (m.locked = true → Mutex.TryLock m = (false, m)) := by
  refine ⟨fun h => ?_, fun h => ?_⟩ <;> simp [Mutex.TryLock, h]

/-- Witness for C10: both branches evaluated at concrete mutex states. -/
theorem mutex_tryLock_spec_witness :
    Mutex.TryLock ⟨false⟩ = (true, ⟨true⟩) ∧
    Mutex.TryLock ⟨true⟩ = (false, ⟨true⟩) :=
  ⟨(mutex_tryLock_spec ⟨false⟩).1 rfl, (mutex_tryLock_spec ⟨true⟩).2 rfl⟩

/-! ### List[T] (src/unnamed/part_002)

`container/list` under a mutex, front of the Lean list = front of the Go list.
All mutation happens under `l.mu`, so each operation is one atomic step. -/

/-- `PushBack`: insert at the tail (and signal one waiter; the wakeup is
irrelevant to the sequential content of the list). -/
def PushBack {T : Type} (l : List T) (v : T) : List T := l ++ [v]

/-- `PopFront`: returns `(zero, false)` on an empty list, otherwise removes and
returns the front element with `true`. -/
def PopFront {T : Type} [Inhabited T] : List T → T × Bool × List T
  | [] => (default, false, [])
  | x :: xs => (x, true, xs)

/-- Operations applied to a `List[T]` by its clients. -/
inductive ListOp (T : Type) where
  | push (v : T)
  | pop

/-- Execution history of a run: the current list, every value ever pushed (in
order) and every value successfully popped (in order). -/
structure RunSt (T : Type) where
  cur : List T
  pushed : List T
  popped : List T

def stepOp {T : Type} [Inhabited T] (s : RunSt T) : ListOp T → RunSt T
  | .push v => ⟨PushBack s.cur v, s.pushed ++ [v], s.popped⟩
  | .pop =>
    match PopFront s.cur with
    | (v, true, rest) => ⟨rest, s.pushed, s.popped ++ [v]⟩
    | (_, false, rest) => ⟨rest, s.pushed, s.popped⟩

def runOps {T : Type} [Inhabited T] (ops : List (ListOp T)) : RunSt T :=
  ops.foldl stepOp ⟨[], [], []⟩

theorem stepOp_inv {T : Type} [Inhabited T] (s : RunSt T) (op : ListOp T)
    (h : s.pushed = s.popped ++ s.cur) :
    (stepOp s op).pushed = (stepOp s op).popped ++ (stepOp s op).cur := by
  cases op with
  | push v => simp [stepOp, PushBack, h]
  | pop =>
    cases hc : s.cur with
    | nil => simp [stepOp, PopFront, hc, h, hc ▸ h]
    | cons x xs => simp [stepOp, PopFront, hc, hc ▸ h]

theorem foldl_stepOp_inv {T : Type} [Inhabited T] (ops : List (ListOp T)) (s : RunSt T)
    (h : s.pushed = s.popped ++ s.cur) :
    (ops.foldl stepOp s).pushed =
      (ops.foldl stepOp s).popped ++ (ops.foldl stepOp s).cur := by
  induction ops generalizing s with
  | nil => simpa using h
  | cons op rest ih => exact ih _ (stepOp_inv s op h)

/-- C3: in every sequence of PushBack / PopFront operations the successfully
popped values form a prefix of the pushed values: removal order equals insertion
order, each pushed element is removed at most once, none is skipped or
duplicated.  PopFront on an empty list returns the zero value and false and
leaves the list empty. -/
theorem list_push_pop_fifo {T : Type} [Inhabited T] (ops : List (ListOp T)) :
    (runOps ops).popped.IsPrefix (runOps ops).pushed ∧
    PopFront ([] : List T) = ((default : T), false, ([] : List T)) := by
  refine ⟨⟨(runOps ops).cur, ?_⟩, rfl⟩
  exact (foldl_stepOp_inv ops ⟨[], [], []⟩ rfl).symm

/-! ### List[T].PopFrontCtx (src/unnamed/part_002, lines 43–75)

The call spawns a helper goroutine that pops under the lock and hands the value
over an unbuffered channel, while the caller selects between the hand-off, the
helper's error channel and `ctx.Done()`.  The cancellation timing and the final
select's choice are the only nondeterminism; they are made explicit. -/

/-- When, relative to this call, the supplied context is cancelled.
`duringWait b`: the context becomes done after the call started; if the helper
has already removed an element and is offering it on `itemCh`, `b` records
whether the final select picks `<-ctx.Done()` over the hand-off. -/
inductive CtxCancel where
  | atEntry
  | duringWait (ctxWins : Bool)
  | never
  deriving DecidableEq

inductive PopCtxResult (T : Type) where
  | ok (v : T)
  | cancelErr
  | blocked
  deriving DecidableEq

/-- `PopFrontCtx` for a single call on a list with no concurrent pushes:
  * context already done at entry: the first select returns `ctx.Err()`, no removal;
  * context never done: on a non-empty list the helper pops and the hand-off is
    taken; on an empty list the call blocks forever;
  * context done during the wait: on an empty list the helper (or the caller's
    select) reports the cancellation error with no removal; on a non-empty list
    the helper has already removed the front element, and if `<-ctx.Done()` wins
    the final select the removed value is silently discarded. -/
def PopFrontCtx {T : Type} (l : List T) (c : CtxCancel) : PopCtxResult T × List T :=
  match c with
  | .atEntry => (.cancelErr, l)
  | .never =>
    match l with
    | [] => (.blocked, [])
    | x :: xs => (.ok x, xs)
  | .duringWait ctxWins =>
    match l with
    | [] => (.cancelErr, [])
    | x :: xs => if ctxWins then (.cancelErr, xs) else (.ok x, xs)

/-- C2 (failing run): on the one-element list `[0]`, if cancellation fires while
the helper goroutine is handing the popped value over and `<-ctx.Done()` wins
the final select, `PopFrontCtx` reports a cancellation error yet the element has
been removed from the list and discarded — the list is left `[]`, not `[0]`. -/
theorem popFrontCtx_cancel_drops_element :
    PopFrontCtx [0] (.duringWait true) = (.cancelErr, ([] : List Nat)) ∧
    ([] : List Nat) ≠ [0] := by
  exact ⟨rfl, by simp⟩

/-! ### KamikazeMutex (watchdog lock) -/

/-- Diagnostic snapshot logged on a watchdog timeout. -/
structure Diagnostic where
  stackTrace : String
  timeout : Nat
  deriving DecidableEq

/-- Outcome of a watchdog `lock()` call: either the lock was acquired, or the
whole process terminated with the given exit code after logging a diagnostic. -/
inductive LockOutcome where
  | acquired (m : Bool × Nat)
  | processExit (code : Nat) (logged : Diagnostic)
  deriving DecidableEq

/-- Modelled from the spec: the KamikazeMutex implementation is not under src/
(only its tests in src/unnamed/part_000 and part_001 are).  Spec §4.1: `lock()`
blocks until (a) the lock becomes available, in which case it transitions to
locked and returns, or (b) the timeout elapses first, in which case it captures
the caller's stack trace and the configured timeout for logging and terminates
the process with a non-zero exit status (the tests pin the status to 1).
The boolean argument records which of (a)/(b) happened; the state is the pair
(locked, configured timeout). -/
def kamikazeLock (locked : Bool) (timeout : Nat)
    (acquiredBeforeTimeout : Bool) (callerStack : String) : LockOutcome :=
  if acquiredBeforeTimeout then .acquired (true, timeout)
  else .processExit 1 ⟨callerStack, timeout⟩

/-- C6: when the watchdog lock's `lock()` does not acquire the lock before the
configured timeout elapses, the call does not return normally: the outcome is a
process termination with exit status 1 (non-zero), and the diagnostic logged on
that path carries the caller's stack trace and the configured timeout value. -/
theorem kamikaze_lock_timeout_exits_one (locked : Bool) (timeout : Nat) (stack : String) :
    kamikazeLock locked timeout false stack = .processExit 1 ⟨stack, timeout⟩ ∧
    (∀ m, kamikazeLock locked timeout false stack ≠ .acquired m) ∧ (1 : Nat) ≠ 0 := by
  refine ⟨rfl, fun m => ?_, one_ne_zero⟩
  simp [kamikazeLock]

/-! ### cbQueue (src/unnamed/part_003): push, close, drain

The baton-passing dispatcher.  `closeCh` is a channel closed exactly once by
`close()`; `closed` is the atomic flag tested by `Swap`.  Callbacks are
identified by natural numbers. -/

structure CBQueue where
  queue : List Nat
  closedCh : Bool
  closed : Bool
  deriving DecidableEq

/-- What the fast path of `push` did with the submitted callback. -/
inductive PushResult where
  | droppedSilently
  | enqueued
  deriving DecidableEq

/-- `push` (part_003, lines 69–82): `select { case <-q.closeCh: return; default: }`.
A closed `closeCh` makes the receive arm ready, and Go's select never takes
`default` when another arm is ready, so once `closeCh` is closed the callback is
dropped deterministically: no enqueue, no invocation, no error.  Otherwise the
callback is appended to the list (it is then invoked on the caller once the
dispatcher grants the baton). -/
def cbPush (s : CBQueue) (cbId : Nat) : CBQueue × PushResult :=
  if s.closedCh then (s, .droppedSilently)
  else ({ s with queue := s.queue ++ [cbId] }, .enqueued)

/-- Fate of one accepted request during the close-drain loop. -/
inductive ReqFate where
  | completed
  | dropped
  | notAwaited
  deriving DecidableEq

/-- How the races inside one `dispatchOne` call resolve while `closeCh` is
already closed (so the helper goroutine cancels `ctx` at an arbitrary moment).
  * `cancelAtEntry`: `ctx` is already done when `PopFrontCtx` starts; nothing popped.
  * `cancelAfterPop`: the helper removed the front request but `<-ctx.Done()`
    wins the final select in `PopFrontCtx`; the request is discarded unpopped
    to anyone — it is never granted.
  * `grantLost`: the pop succeeded, but the grant select takes `<-ctx.Done()`
    instead of `v.ready <- done`; the popped request is never granted.
  * `grantThenCancel`: the request was granted, but the wait select takes
    `<-ctx.Done()` instead of `<-done`; completion is not awaited.
  * `full`: pop, grant and completion wait all succeed. -/
inductive DrainRace where
  | cancelAtEntry
  | cancelAfterPop
  | grantLost
  | grantThenCancel
  | full
  deriving DecidableEq

/-- One `dispatchOne` call executed from `close()`'s drain loop, with `closeCh`
closed: returns the remaining queue and the fate of the request it touched. -/
def dispatchOneClosed (q : List Nat) (r : DrainRace) : List Nat × List (Nat × ReqFate) :=
  match q, r with
  | q, .cancelAtEntry => (q, [])
  | [], _ => ([], [])
  | i :: rest, .cancelAfterPop => (rest, [(i, .dropped)])
  | i :: rest, .grantLost => (rest, [(i, .dropped)])
  | i :: rest, .grantThenCancel => (rest, [(i, .notAwaited)])
  | i :: rest, .full => (rest, [(i, .completed)])

/-- The drain loop of `close()` (part_003, lines 91–94):
`for q.callbacks.Len() > 0 { q.dispatchOne() }`, with one race resolution per
iteration; returns the request fates in order and the queue left when the
schedule runs out. -/
def closeDrain : List Nat → List DrainRace → List (Nat × ReqFate) × List Nat
  | q, [] => ([], q)
  | q, r :: rs =>
    match q with
    | [] => ([], [])
    | i :: rest =>
      let step := dispatchOneClosed (i :: rest) r
      let tail := closeDrain step.1 rs
      (step.2 ++ tail.1, tail.2)

/-- `close` (part_003, lines 86–95): `if q.closed.Swap(true) { return }` makes a
second call a no-op; the first call closes `closeCh` and runs the drain loop. -/
def closeFull (s : CBQueue) (sched : List DrainRace) : CBQueue × List (Nat × ReqFate) :=
  if s.closed then (s, [])
  else
    let d := closeDrain s.queue sched
    (⟨d.2, true, true⟩, d.1)

/-- State of the dispatcher after a `close` call. -/
def closeState (s : CBQueue) (sched : List DrainRace) : CBQueue :=
  (closeFull s sched).1

/-- C4 (failing run): one request (id 7) was accepted into the queue before
`close()` fired the shutdown signal.  Under the schedule where, in the drain
loop's `dispatchOne`, the helper goroutine pops the request and then
`<-ctx.Done()` wins the final select, the request is discarded without ever
being granted (fate `dropped`, the submitting goroutine stays blocked on
`<-cb.ready` forever), yet the queue is empty so `close()` returns. -/
theorem close_drain_abandons_request :
    closeFull ⟨[7], false, false⟩ [.cancelAfterPop] = (⟨[], true, true⟩, [(7, .dropped)]) := by
  rfl

/-- C7: after `close()` has returned on a dispatcher that was open (`closed`
flag not yet set), `closeCh` is closed, so any subsequent `push` returns with
the dispatcher state unchanged and the callback silently dropped: nothing is
enqueued, the callback is never invoked, and no error is reported. -/
theorem push_after_close_dropped (s : CBQueue) (sched : List DrainRace) (cbId : Nat)
    (h : s.closed = false) :
    (closeState s sched).closedCh = true ∧
    cbPush (closeState s sched) cbId = (closeState s sched, .droppedSilently) := by
  have hch : (closeState s sched).closedCh = true := by
    simp [closeState, closeFull, h]
  exact ⟨hch, by simp [cbPush, hch]⟩

/-- Witness for C7: a dispatcher holding one pending request is closed, then a
push of callback 9 is dropped with the state unchanged. -/
theorem push_after_close_dropped_witness :
    (closeState ⟨[3], false, false⟩ [.full]).closedCh = true ∧
    cbPush (closeState ⟨[3], false, false⟩ [.full]) 9 =
      (closeState ⟨[3], false, false⟩ [.full], .droppedSilently) :=
  push_after_close_dropped ⟨[3], false, false⟩ [.full] 9 rfl

theorem closeFull_of_closed (s : CBQueue) (sched : List DrainRace) (h : s.closed = true) :
    closeFull s sched = (s, []) := by
  simp [closeFull, h]

theorem closeState_closed (s : CBQueue) (sched : List DrainRace) :
    (closeState s sched).closed = true := by
  by_cases h : s.closed
  · simp [closeState, closeFull, h]
  · simp [closeState, closeFull, h]

/-- C8: `close()` is idempotent.  After a first `close` call, every later
`close` call is a no-op: it returns no request fates (no second drain, since
`closed.Swap(true)` reports the flag already set) and leaves the state exactly
as after the first call; iterating `close` any number `n` of further times
(total `n + 1 ≥ 1` calls) yields the same state as one call. -/
theorem close_idempotent (s : CBQueue) (sched sched' : List DrainRace) (n : Nat) :
    closeFull (closeState s sched) sched' = (closeState s sched, []) ∧
    (fun t => closeState t sched')^[n] (closeState s sched) = closeState s sched := by
  have hone : closeFull (closeState s sched) sched' = (closeState s sched, []) :=
    closeFull_of_closed _ _ (closeState_closed s sched)
  refine ⟨hone, ?_⟩
  induction n with
  | zero => rfl
  | succ k ih =>
    rw [Function.iterate_succ_apply', ih]
    show (closeFull (closeState s sched) sched').1 = closeState s sched
    rw [hone]

/-! ### The two dispatchers at the public contract (C9)

src/queue.go implements `cbQueue` as a worker: `push` sends the closure into a
channel and the dedicated `dispatch` goroutine runs each closure itself;
`for cb := range q.callbacks` keeps draining until the channel is closed *and*
empty, so everything accepted before `close` is still run, in order.
src/unnamed/part_003 implements `cbQueue` by baton passing: `push` enqueues,
blocks until the dispatch loop grants it the baton, and runs the closure on the
submitting caller before returning.  Both are modelled as deterministic state
machines over the same operation alphabet, each race resolved in program order
(the adversarial close-drain schedules are settled separately under C4). -/

/-- Operations at the dispatcher's public boundary.  `dispatchStep` is one
iteration of the worker's background loop (for the baton dispatcher the loop
does not run closures, so the step is only the hand-off already accounted for
inside `push`). -/
inductive DispOp where
  | push (cb : Nat)
  | close
  | dispatchStep

/-- Worker-style dispatcher state (src/queue.go): the `closed` flag, the
contents of the `callbacks` channel, the closures already run by the dispatch
goroutine (in order) and the submissions dropped after close. -/
structure WorkerSt where
  closed : Bool
  chanQ : List Nat
  ran : List Nat
  dropped : List Nat

def workerOp (s : WorkerSt) : DispOp → WorkerSt
  | .push cb =>
    if s.closed then { s with dropped := s.dropped ++ [cb] }
    else { s with chanQ := s.chanQ ++ [cb] }
  | .close => if s.closed then s else { s with closed := true }
  | .dispatchStep =>
    match s.chanQ with
    | [] => s
    | cb :: rest => { s with chanQ := rest, ran := s.ran ++ [cb] }

/-- Closures the worker dispatcher invokes, now or eventually: those already run
plus those still in the channel, which the `for range` loop is guaranteed to
run in order (the loop exits only once the channel is closed and drained). -/
def workerInvoked (s : WorkerSt) : List Nat := s.ran ++ s.chanQ

/-- Baton-passing dispatcher state at the public contract (src/unnamed/part_003):
since `push` does not return until its own closure has run on the caller, an
accepted submission has been invoked by the time the operation completes. -/
structure BatonSt where
  closed : Bool
  ran : List Nat
  dropped : List Nat

def batonOp (s : BatonSt) : DispOp → BatonSt
  | .push cb =>
    if s.closed then { s with dropped := s.dropped ++ [cb] }
    else { s with ran := s.ran ++ [cb] }
  | .close => if s.closed then s else { s with closed := true }
  | .dispatchStep => s

def workerRun (ops : List DispOp) : WorkerSt :=
  ops.foldl workerOp ⟨false, [], [], []⟩

def batonRun (ops : List DispOp) : BatonSt :=
  ops.foldl batonOp ⟨false, [], []⟩

/-- Simulation relation between the two dispatchers. -/
def DispSim (w : WorkerSt) (b : BatonSt) : Prop :=
  w.closed = b.closed ∧ workerInvoked w = b.ran ∧ w.dropped = b.dropped

theorem dispSim_step (w : WorkerSt) (b : BatonSt) (op : DispOp) (h : DispSim w b) :
    DispSim (workerOp w op) (batonOp b op) := by
  obtain ⟨hc, hr, hd⟩ := h
  simp only [workerInvoked] at hr
  cases op with
  | push cb =>
    cases hcl : w.closed with
    | true =>
      have hbc : b.closed = true := by rw [← hc, hcl]
      refine ⟨?_, ?_, ?_⟩
      · simp [workerOp, batonOp, hcl, hbc, hc]
      · simpa [workerOp, batonOp, hcl, hbc, workerInvoked] using hr
      · simp [workerOp, batonOp, hcl, hbc, hd]
    | false =>
      have hbc : b.closed = false := by rw [← hc, hcl]
      refine ⟨?_, ?_, ?_⟩
      · simp [workerOp, batonOp, hcl, hbc, hc]
      · simp only [workerOp, batonOp, hcl, hbc, workerInvoked]
        simp only [Bool.false_eq_true, if_false]
        rw [← List.append_assoc, hr]
      · simp [workerOp, batonOp, hcl, hbc, hd]
  | close =>
    cases hcl : w.closed with
    | true =>
      have hbc : b.closed = true := by rw [← hc, hcl]
      exact ⟨by simp [workerOp, batonOp, hcl, hbc, hc],
        by simpa [workerOp, batonOp, hcl, hbc, workerInvoked] using hr,
        by simp [workerOp, batonOp, hcl, hbc, hd]⟩
    | false =>
      have hbc : b.closed = false := by rw [← hc, hcl]
      exact ⟨by simp [workerOp, batonOp, hcl, hbc],
        by simpa [workerOp, batonOp, hcl, hbc, workerInvoked] using hr,
        by simp [workerOp, batonOp, hcl, hbc, hd]⟩
  | dispatchStep =>
    cases hq : w.chanQ with
    | nil =>
      exact ⟨by simp [workerOp, batonOp, hq, hc],
        by simpa [workerOp, batonOp, hq, workerInvoked] using hr,
        by simp [workerOp, batonOp, hq, hd]⟩
    | cons cb rest =>
      refine ⟨by simp [workerOp, batonOp, hq, hc], ?_,
        by simp [workerOp, batonOp, hq, hd]⟩
      simp only [workerOp, batonOp, hq, workerInvoked]
      rw [List.append_assoc, List.singleton_append, ← hq, hr]

theorem dispSim_run (ops : List DispOp) : DispSim (workerRun ops) (batonRun ops) := by
  have base : DispSim ⟨false, [], [], []⟩ ⟨false, [], []⟩ := ⟨rfl, rfl, rfl⟩
  unfold workerRun batonRun
  generalize hw : (⟨false, [], [], []⟩ : WorkerSt) = w at base
  generalize hb : (⟨false, [], []⟩ : BatonSt) = b at base
  clear hw hb
  induction ops generalizing w b with
  | nil => simpa using base
  | cons op rest ih => exact ih _ _ (dispSim_step w b op base)

/-- C9: at the public contract the worker-style dispatcher (src/queue.go) and
the baton-passing dispatcher (src/unnamed/part_003) are observationally
equivalent: for every sequence of push, close and dispatch-loop operations,
both invoke exactly the same callbacks in the same submission order, and both
drop exactly the callbacks pushed after close. -/
theorem dispatchers_observationally_equivalent (ops : List DispOp) :
    workerInvoked (workerRun ops) = (batonRun ops).ran ∧
    (workerRun ops).dropped = (batonRun ops).dropped :=
  ⟨(dispSim_run ops).2.1, (dispSim_run ops).2.2⟩

/-! ### C1: the baton-passing protocol as an interleaved transition system

src/unnamed/part_003 with `close` never called (`closeCh` stays open, so every
`ctx` used by `dispatchOne` stays live and `PopFrontCtx` behaves as a plain
blocking FIFO pop).  Producers are identified by naturals; each step below is
one linearization point of the Go code:
  * `push`: a producer appends its `asyncCB` to the list (under the list lock)
    and blocks on `<-cb.ready`;
  * `grant`: the dispatch loop's `PopFrontCtx` removes the front request and
    `v.ready <- done` deposits the baton in the capacity-1 `ready` channel;
  * `start`: the blocked producer receives the baton and the callback body `f`
    begins executing on the producer's own goroutine;
  * `finish`: `f` returns and the producer closes `done`;
  * `ack`: the dispatch loop's `<-done` completes and it loops to the next pop.
The ghost fields `accepted` and `begun` record the order in which submissions
were accepted and the order in which callback bodies began. -/

inductive PState where
  | idle
  | pushed
  | granted
  | running
  | finished
  deriving DecidableEq

inductive DState where
  | free
  | waiting (i : Nat)
  deriving DecidableEq

structure Disp where
  queue : List Nat
  disp : DState
  prods : Nat → PState
  accepted : List Nat
  begun : List Nat

inductive Step : Disp → Disp → Prop where
  | push (s : Disp) (i : Nat) (h : s.prods i = .idle) :
      Step s { s with queue := s.queue ++ [i],
                      prods := Function.update s.prods i .pushed,
                      accepted := s.accepted ++ [i] }
  | grant (s : Disp) (i : Nat) (rest : List Nat)
      (hq : s.queue = i :: rest) (hd : s.disp = .free) :
      Step s { s with queue := rest, disp := .waiting i,
                      prods := Function.update s.prods i .granted }
  | start (s : Disp) (i : Nat) (h : s.prods i = .granted) :
      Step s { s with prods := Function.update s.prods i .running,
                      begun := s.begun ++ [i] }
  | finish (s : Disp) (i : Nat) (h : s.prods i = .running) :
      Step s { s with prods := Function.update s.prods i .finished }
  | ack (s : Disp) (i : Nat) (hd : s.disp = .waiting i) (hp : s.prods i = .finished) :
      Step s { s with disp := .free }

def dInit : Disp := ⟨[], .free, fun _ => .idle, [], []⟩

def Reach (s : Disp) : Prop := Relation.ReflTransGen Step dInit s

/-- The at-most-one request holding an ungranted baton: `[i]` when the dispatch
loop has popped request `i` and deposited the baton but `i` has not yet begun. -/
def grantWord (s : Disp) : List Nat :=
  match s.disp with
  | .free => []
  | .waiting i => if s.prods i = .granted then [i] else []

structure Inv (s : Disp) : Prop where
  split : s.accepted = s.begun ++ grantWord s ++ s.queue
  nodupAcc : s.accepted.Nodup
  accMem : ∀ i, i ∈ s.accepted ↔ s.prods i ≠ .idle
  queued : ∀ i ∈ s.queue, s.prods i = .pushed
  active : ∀ i, s.prods i = .granted ∨ s.prods i = .running → s.disp = .waiting i
  waitState : ∀ i, s.disp = .waiting i →
      s.prods i = .granted ∨ s.prods i = .running ∨ s.prods i = .finished

theorem grantWord_free {s : Disp} (h : s.disp = .free) : grantWord s = [] := by
  simp [grantWord, h]

theorem nodup_append_singleton {α : Type} {l : List α} {a : α}
    (h : l.Nodup) (ha : a ∉ l) : (l ++ [a]).Nodup := by
  simp [List.nodup_append, h, ha]

theorem inv_init : Inv dInit := by
  refine ⟨rfl, List.nodup_nil, ?_, ?_, ?_, ?_⟩ <;> simp [dInit]

theorem inv_step {s t : Disp} (hst : Step s t) (hs : Inv s) : Inv t := by
  cases hst with
  | push i hp =>
    obtain ⟨hsplit, hnodup, haccMem, hqueued, hactive, hwait⟩ := hs
    have hiNot : i ∉ s.accepted := fun hmem => (haccMem i).1 hmem hp
    have hgw : grantWord
        { s with
            queue := s.queue ++ [i],
            prods := Function.update s.prods i .pushed,
            accepted := s.accepted ++ [i] } = grantWord s := by
      cases hd : s.disp with
      | free => simp [grantWord, hd]
      | waiting j =>
        have hji : j ≠ i := by
          intro he
          rcases hwait j hd with h1 | h1 | h1 <;> rw [he, hp] at h1 <;> simp at h1
        simp [grantWord, hd, Function.update_apply, hji]
    refine ⟨?_, ?_, ?_, ?_, ?_, ?_⟩
    · dsimp only
      rw [hgw, hsplit]
      simp [List.append_assoc]
    · dsimp only
      exact nodup_append_singleton hnodup hiNot
    · intro j
      dsimp only
      by_cases hji : j = i
      · subst hji
        simp [Function.update_same]
      · simp [Function.update_apply, hji, haccMem j]
    · intro j hj
      dsimp only at hj ⊢
      rcases List.mem_append.mp hj with hj' | hj'
      · have hji : j ≠ i := by
          intro he
          have h2 := hqueued j hj'
          rw [he, hp] at h2
          simp at h2
        rw [Function.update_apply, if_neg hji]
        exact hqueued j hj'
      · have hji : j = i := by simpa using hj'
        subst hji
        simp [Function.update_same]
    · intro j hj
      dsimp only at hj ⊢
      by_cases hji : j = i
      · subst hji
        rw [Function.update_same] at hj
        rcases hj with h1 | h1 <;> simp at h1
      · rw [Function.update_apply, if_neg hji] at hj
        exact hactive j hj
    · intro j hdj
      dsimp only at hdj ⊢
      have hji : j ≠ i := by
        intro he
        rcases hwait j hdj with h1 | h1 | h1 <;> rw [he, hp] at h1 <;> simp at h1
      rw [Function.update_apply, if_neg hji]
      exact hwait j hdj
  | grant i rest hq hd =>
    obtain ⟨hsplit, hnodup, haccMem, hqueued, hactive, hwait⟩ := hs
    have hpi : s.prods i = .pushed := hqueued i (by rw [hq]; exact List.mem_cons_self i rest)
    have hacc : s.accepted = s.begun ++ i :: rest := by
      rw [hsplit, grantWord_free hd, hq]
      simp
    have hnd2 : (s.begun ++ i :: rest).Nodup := hacc ▸ hnodup
    have hir : i ∉ rest := (List.nodup_cons.mp hnd2.of_append_right).1
    have hgw : grantWord
        { s with
            queue := rest,
            disp := DState.waiting i,
            prods := Function.update s.prods i .granted } = [i] := by
      simp [grantWord, Function.update_same]
    refine ⟨?_, ?_, ?_, ?_, ?_, ?_⟩
    · dsimp only
      rw [hgw, hacc]
      simp
    · dsimp only
      exact hnodup
    · intro j
      dsimp only
      by_cases hji : j = i
      · subst hji
        simp only [Function.update_same]
        constructor
        · intro _
          simp
        · intro _
          refine (haccMem _).2 ?_
          rw [hpi]
          simp
      · simp [Function.update_apply, hji, haccMem j]
    · intro j hj
      dsimp only at hj ⊢
      have hji : j ≠ i := fun he => hir (he ▸ hj)
      rw [Function.update_apply, if_neg hji]
      exact hqueued j (by rw [hq]; exact List.mem_cons_of_mem i hj)
    · intro j hj
      dsimp only at hj ⊢
      by_cases hji : j = i
      · subst hji
        rfl
      · rw [Function.update_apply, if_neg hji] at hj
        have h2 := hactive j hj
        rw [hd] at h2
        simp at h2
    · intro j hdj
      dsimp only at hdj ⊢
      cases hdj
      left
      simp [Function.update_same]
  | start i hp =>
    obtain ⟨hsplit, hnodup, haccMem, hqueued, hactive, hwait⟩ := hs
    have hdisp : s.disp = .waiting i := hactive i (Or.inl hp)
    have hiq : i ∉ s.queue := by
      intro hmem
      have h2 := hqueued i hmem
      rw [hp] at h2
      simp at h2
    have hgwOld : grantWord s = [i] := by simp [grantWord, hdisp, hp]
    have hgwNew : grantWord
        { s with
            prods := Function.update s.prods i .running,
            begun := s.begun ++ [i] } = [] := by
      simp [grantWord, hdisp, Function.update_same]
    refine ⟨?_, ?_, ?_, ?_, ?_, ?_⟩
    · dsimp only
      rw [hgwNew, hsplit, hgwOld]
      simp
    · dsimp only
      exact hnodup
    · intro j
      dsimp only
      by_cases hji : j = i
      · subst hji
        simp only [Function.update_same]
        constructor
        · intro _
          simp
        · intro _
          refine (haccMem _).2 ?_
          rw [hp]
          simp
      · simp [Function.update_apply, hji, haccMem j]
    · intro j hj
      dsimp only at hj ⊢
      have hji : j ≠ i := fun he => hiq (he ▸ hj)
      rw [Function.update_apply, if_neg hji]
      exact hqueued j hj
    · intro j hj
      dsimp only at hj ⊢
      by_cases hji : j = i
      · subst hji
        exact hdisp
      · rw [Function.update_apply, if_neg hji] at hj
        have h2 := hactive j hj
        rw [hdisp] at h2
        cases h2
        exact absurd rfl hji
    · intro j hdj
      dsimp only at hdj ⊢
      rw [hdisp] at hdj
      cases hdj
      right; left
      simp [Function.update_same]
  | finish i hp =>
    obtain ⟨hsplit, hnodup, haccMem, hqueued, hactive, hwait⟩ := hs
    have hdisp : s.disp = .waiting i := hactive i (Or.inr hp)
    have hiq : i ∉ s.queue := by
      intro hmem
      have h2 := hqueued i hmem
      rw [hp] at h2
      simp at h2
    have hgwOld : grantWord s = [] := by simp [grantWord, hdisp, hp]
    have hgwNew : grantWord
        { s with prods := Function.update s.prods i .finished } = [] := by
      simp [grantWord, hdisp, Function.update_same]
    refine ⟨?_, ?_, ?_, ?_, ?_, ?_⟩
    · dsimp only
      rw [hgwNew, hsplit, hgwOld]
    · dsimp only
      exact hnodup
    · intro j
      dsimp only
      by_cases hji : j = i
      · subst hji
        simp only [Function.update_same]
        constructor
        · intro _
          simp
        · intro _
          refine (haccMem _).2 ?_
          rw [hp]
          simp
      · simp [Function.update_apply, hji, haccMem j]
    · intro j hj
      dsimp only at hj ⊢
      have hji : j ≠ i := fun he => hiq (he ▸ hj)
      rw [Function.update_apply, if_neg hji]
      exact hqueued j hj
    · intro j hj
      dsimp only at hj ⊢
      by_cases hji : j = i
      · subst hji
        exact hdisp
      · rw [Function.update_apply, if_neg hji] at hj
        have h2 := hactive j hj
        rw [hdisp] at h2
        cases h2
        exact absurd rfl hji
    · intro j hdj
      dsimp only at hdj ⊢
      rw [hdisp] at hdj
      cases hdj
      right; right
      simp [Function.update_same]
  | ack i hd hp =>
    obtain ⟨hsplit, hnodup, haccMem, hqueued, hactive, hwait⟩ := hs
    have hgwOld : grantWord s = [] := by simp [grantWord, hd, hp]
    have hgwNew : grantWord
        { s with disp := DState.free } = [] := by
      simp [grantWord]
    refine ⟨?_, ?_, ?_, ?_, ?_, ?_⟩
    · dsimp only
      rw [hgwNew, hsplit, hgwOld]
    · dsimp only
      exact hnodup
    · intro j
      dsimp only
      exact haccMem j
    · intro j hj
      dsimp only at hj ⊢
      exact hqueued j hj
    · intro j hj
      dsimp only at hj ⊢
      have h2 := hactive j hj
      rw [hd] at h2
      cases h2
      rcases hj with h1 | h1 <;> rw [hp] at h1 <;> simp at h1
    · intro j hdj
      dsimp only at hdj
      simp at hdj

theorem inv_of_reach (s : Disp) (h : Reach s) : Inv s := by
  unfold Reach at h
  induction h with
  | refl => exact inv_init
  | tail _ hbc ih => exact inv_step hbc ih

/-- C1: in every reachable state of the baton-passing dispatcher (any number of
producers pushing concurrently, one background task running the dispatch loop),
the order in which callback bodies have begun execution is exactly the order in
which the submissions were accepted (a prefix of it, since some accepted
requests have not begun yet), and no two callback bodies execute concurrently:
at most one producer is in the `running` state. -/
theorem cbQueue_dispatch_order_mutual_exclusion (s : Disp) (h : Reach s) :
    s.begun.IsPrefix s.accepted ∧
    ∀ i j, s.prods i = .running → s.prods j = .running → i = j := by
  have hinv : Inv s := inv_of_reach s h
  refine ⟨⟨grantWord s ++ s.queue, ?_⟩, ?_⟩
  · rw [← List.append_assoc]
    exact hinv.split.symm
  · intro i j hi hj
    have h1 := hinv.active i (Or.inr hi)
    have h2 := hinv.active j (Or.inr hj)
    rw [h1] at h2
    exact (DState.waiting.inj h2)

/-- A concrete run for the C1 witness: producer 0 pushes, is granted the baton
and begins running its callback. -/
def wS1 : Disp :=
  { dInit with
      queue := dInit.queue ++ [0],
      prods := Function.update dInit.prods 0 .pushed,
      accepted := dInit.accepted ++ [0] }

def wS2 : Disp :=
  { wS1 with
      queue := [],
      disp := .waiting 0,
      prods := Function.update wS1.prods 0 .granted }

def wS3 : Disp :=
  { wS2 with
      prods := Function.update wS2.prods 0 .running,
      begun := wS2.begun ++ [0] }

/-- Witness for C1: the state reached by push, grant, start of producer 0 is
reachable, and there the begun order is a prefix of the accepted order. -/
theorem cbQueue_dispatch_order_witness :
    Reach wS3 ∧ wS3.begun.IsPrefix wS3.accepted := by
  have h1 : Step dInit wS1 := Step.push dInit 0 rfl
  have h2 : Step wS1 wS2 := Step.grant wS1 0 [] rfl rfl
  have h3 : Step wS2 wS3 := Step.start wS2 0 (by simp [wS2, Function.update_same])
  have hr : Reach wS3 :=
    Relation.ReflTransGen.tail
      (Relation.ReflTransGen.tail
        (Relation.ReflTransGen.tail Relation.ReflTransGen.refl h1) h2) h3
  exact ⟨hr, (cbQueue_dispatch_order_mutual_exclusion wS3 hr).1⟩

end Centrifuge
